import Mathlib

set_option maxRecDepth 8000

/-!
# Verification of the rank-based normalization / recommendation core

Shallow embedding of the algorithmic core of `src/utils.ts`:

* `calculateRankBasedNormalization` (rank-based normalization with sentinel
  filtering and a lower-bound binary search),
* `denormalizeRankBased` (approximate inverse via linear interpolation),
* `recommendStyles` (Euclidean nearest-neighbour search with tie-grouped ranks),
* `generateContourPath` (mean-radius contour ring).

Raw scores and normalized coordinates are modelled as rationals (`ℚ`); the
Euclidean distances and the contour geometry, which use square roots and
trigonometric functions, live in `ℝ`.
-/

namespace StyleScoring

/-- A coordinate in the design space: `x` always present, `y`/`z` optional
(mirrors the TypeScript `Coordinate` with optional `y`/`z` fields). -/
structure Coordinate where
  x : ℚ
  y : Option ℚ
  z : Option ℚ
  deriving DecidableEq, Repr

/-- The active axis-pair (`StyleSetType` in the source): `A` = (x, y),
`B` = (x, z). -/
inductive StyleSetType where
  | A
  | B
  deriving DecidableEq, Repr

/-- A catalog entity with its three raw scalar attributes and visibility flag.
Field `plLs` models the raw x value `"PL‑LS (선형+Tanh)"`, `biKae` the raw
y value `"비캐 지도값"`, `kae` the raw z value `"캐 지도값"`. -/
structure StyleMaster where
  plLs : ℚ
  biKae : ℚ
  kae : ℚ
  display : Bool
  deriving DecidableEq, Repr

/-- An entity together with its (possibly absent) cached normalized coordinate:
the source attaches `normCoord` to the style object; before any `normalize`
call the field is absent. -/
structure PlotStyle where
  style : StyleMaster
  normCoord : Option Coordinate
  deriving DecidableEq, Repr

/-- Per-axis sorted arrays of admissible raw values (`RankMap` in utils.ts). -/
structure RankMap where
  x : List ℚ
  y : List ℚ
  z : List ℚ
  deriving DecidableEq, Repr

/-- The lower-bound binary-search loop inside `getRank`
(utils.ts lines 121-132).  The JS `while (lo < hi)` loop is modelled
structurally with a fuel argument; each iteration strictly decreases
`hi - lo`, and every caller passes fuel at least `hi - lo`, so the fuel
never runs out before the loop guard fails. -/
def getRankLoop (sortedArr : List ℚ) (value : ℚ) : ℕ → ℕ → ℕ → ℕ
  | 0, lo, _ => lo
  | fuel + 1, lo, hi =>
    if lo < hi then
      let mid := (lo + hi) / 2
      if sortedArr.getD mid 0 < value then
        getRankLoop sortedArr value fuel (mid + 1) hi
      else
        getRankLoop sortedArr value fuel lo mid
    else lo

/-- The `getRank` helper of `calculateRankBasedNormalization`
(utils.ts lines 116-144): rank of `value` in the sorted array, `0.5` for a
degenerate (length ≤ 1) array, `none` (JS `undefined`) when the value is not
present in the array. -/
def getRank (value : ℚ) (sortedArr : List ℚ) : Option ℚ :=
  if sortedArr.length ≤ 1 then some (1 / 2)
  else
    let lo := getRankLoop sortedArr value (sortedArr.length - 1) 0 (sortedArr.length - 1)
    if lo < sortedArr.length ∧ sortedArr.getD lo 0 = value then
      some ((lo : ℚ) / ((sortedArr.length : ℚ) - 1))
    else
      none

/-- `calculateRankBasedNormalization` (utils.ts lines 96-176).
JS `Array.prototype.sort` with the numeric comparator is modelled by
`List.insertionSort (· ≤ ·)` (any stable ascending sort of numbers produces
the same list). -/
def calculateRankBasedNormalization (styles : List StyleMaster) (styleSet : StyleSetType) :
    List PlotStyle × RankMap :=
  let xValues := styles.map (·.plLs)
  let yValues := if styleSet = .A then styles.map (·.biKae) else []
  let zValues := if styleSet = .B then styles.map (·.kae) else []
  let sortedX := List.insertionSort (· ≤ ·) xValues
  let sortedY :=
    if styleSet = .A then
      List.insertionSort (· ≤ ·) (yValues.filter (fun v => decide (v ≠ -1)))
    else
      List.insertionSort (· ≤ ·) yValues
  let sortedZ :=
    if styleSet = .B then
      List.insertionSort (· ≤ ·) (zValues.filter (fun v => decide (v ≠ -1 ∧ 1 / 10000 ≤ v)))
    else
      List.insertionSort (· ≤ ·) zValues
  let normalizedStyles := styles.map (fun style =>
    let x := style.plLs
    let y := if styleSet = .A then style.biKae else 0
    let z := if styleSet = .B then style.kae else 0
    let normX := getRank x sortedX
    let normY := if styleSet = .A then getRank y sortedY else none
    let normZ := if styleSet = .B then getRank z sortedZ else none
    { style := style
      normCoord := some { x := normX.getD (1 / 2), y := normY, z := normZ } })
  (normalizedStyles, { x := sortedX, y := sortedY, z := sortedZ })

/-- The `getValueAtRank` helper of `denormalizeRankBased`
(utils.ts lines 184-197): clamp, scale to a fractional index, interpolate
linearly between the bracketing entries. -/
def getValueAtRank (rank : ℚ) (sortedArr : List ℚ) : ℚ :=
  if sortedArr.length = 0 then 0
  else if sortedArr.length = 1 then sortedArr.getD 0 0
  else
    let clampedRank := max 0 (min 1 rank)
    let floatIndex := clampedRank * ((sortedArr.length : ℚ) - 1)
    let lowerIndex : ℤ := ⌊floatIndex⌋
    let upperIndex : ℤ := ⌈floatIndex⌉
    if lowerIndex = upperIndex then sortedArr.getD lowerIndex.toNat 0
    else
      let weight := floatIndex - (lowerIndex : ℚ)
      sortedArr.getD lowerIndex.toNat 0 * (1 - weight) +
        sortedArr.getD upperIndex.toNat 0 * weight

/-- `denormalizeRankBased` (utils.ts lines 179-213): the result has `y` only
under axis-pair A with `normCoord.y` present, `z` only under axis-pair B with
`normCoord.z` present. -/
def denormalizeRankBased (normCoord : Coordinate) (rankMap : RankMap)
    (styleSet : StyleSetType) : Coordinate :=
  let x := getValueAtRank normCoord.x rankMap.x
  { x := x
    y := if styleSet = .A then normCoord.y.map (fun r => getValueAtRank r rankMap.y) else none
    z := if styleSet = .B then normCoord.z.map (fun r => getValueAtRank r rankMap.z) else none }

/-- An axis name, used by `euclideanDistance` (utils.ts line 33). -/
inductive Axis where
  | x
  | y
  | z
  deriving DecidableEq, Repr

/-- Reading a (possibly absent) component of a coordinate
(`coord[axis]` in utils.ts line 37). -/
def Coordinate.axisVal (c : Coordinate) (a : Axis) : Option ℚ :=
  match a with
  | .x => some c.x
  | .y => c.y
  | .z => c.z

/-- The sum-of-squares loop of `euclideanDistance` (utils.ts lines 35-41);
absent components are read as `0` (`?? 0`). -/
def sumSqOverAxes (coord1 coord2 : Coordinate) (axes : List Axis) : ℚ :=
  axes.foldl (fun sumSq axis =>
    let val1 := (coord1.axisVal axis).getD 0
    let val2 := (coord2.axisVal axis).getD 0
    sumSq + (val1 - val2) * (val1 - val2)) 0

/-- `euclideanDistance` (utils.ts lines 30-43): `Math.sqrt` of the summed
squared differences over the given axes. -/
noncomputable def euclideanDistance (coord1 coord2 : Coordinate) (axes : List Axis) : ℝ :=
  Real.sqrt ((sumSqOverAxes coord1 coord2 axes : ℚ) : ℝ)

/-- A ranked entity entry (`RankedStyle` in the source). -/
structure RankedStyle where
  style : PlotStyle
  distance : ℝ
  rank : ℕ

/-- One rank group of the recommendation result (`RankGroup` in the source). -/
structure RankGroup where
  rank : ℕ
  styles : List PlotStyle
  distance : ℝ

/-- The active axes of an axis-pair (utils.ts line 254). -/
def recommendAxes (styleSet : StyleSetType) : List Axis :=
  if styleSet = .A then [.x, .y] else [.x, .z]

/-- The eligibility filter of `recommendStyles` (utils.ts lines 257-270):
visible, has a normalized coordinate, and the active secondary component is
present. -/
def isEligible (styleSet : StyleSetType) (s : PlotStyle) : Bool :=
  if s.style.display ≠ true then false
  else
    match s.normCoord with
    | none => false
    | some normCoord =>
      if styleSet = .A ∧ normCoord.y = none then false
      else if styleSet = .B ∧ normCoord.z = none then false
      else true

/-- The filtered entity list of `recommendStyles` (utils.ts lines 257-270). -/
def eligibleStyles (styles : List PlotStyle) (styleSet : StyleSetType) : List PlotStyle :=
  styles.filter (isEligible styleSet)

/-- The distance of one eligible entity from the query point
(utils.ts line 275).  After the eligibility filter `normCoord` is always
present; the `getD` default mirrors the source's unchecked cast. -/
noncomputable def recommendDistanceOf (queryCoord : Coordinate) (styleSet : StyleSetType)
    (s : PlotStyle) : ℝ :=
  euclideanDistance queryCoord (s.normCoord.getD ⟨0, none, none⟩) (recommendAxes styleSet)

instance : IsTotal RankedStyle (fun a b => a.distance ≤ b.distance) :=
  ⟨fun a b => le_total a.distance b.distance⟩

instance : IsTrans RankedStyle (fun a b => a.distance ≤ b.distance) :=
  ⟨fun _ _ _ hab hbc => le_trans hab hbc⟩

/-- The distance-sorted eligible entries of `recommendStyles`
(utils.ts lines 272-278); the stable JS sort is `List.insertionSort`. -/
noncomputable def rankedByDistance (queryCoord : Coordinate) (styles : List PlotStyle)
    (styleSet : StyleSetType) : List RankedStyle :=
  List.insertionSort (fun a b => a.distance ≤ b.distance)
    ((eligibleStyles styles styleSet).map (fun style =>
      { style := style
        distance := recommendDistanceOf queryCoord styleSet style
        rank := 0 }))

/-- Rounding a distance to 5 decimal places
(`parseFloat(d.toFixed(5))`, utils.ts line 288). -/
noncomputable def roundTo5 (d : ℝ) : ℝ :=
  ((round (d * 100000) : ℤ) : ℝ) / 100000

/-- `rankGroups[rankGroups.length - 1].styles.push(s)` (utils.ts line 301):
append a style to the last group.  The source only reaches this line when at
least one group exists; on the empty list the model is a no-op. -/
def appendToLast (groups : List RankGroup) (s : PlotStyle) : List RankGroup :=
  match groups with
  | [] => []
  | [g] => [{ g with styles := g.styles ++ [s] }]
  | g :: g2 :: rest => g :: appendToLast (g2 :: rest) s

/-- The grouping loop of `recommendStyles` (utils.ts lines 283-303), with the
loop state (`currentRank`, `currentDistance`, the accumulated `rankGroups`)
made explicit; returning the accumulator models the `break`. -/
noncomputable def buildRankGroupsAux (maxRank : ℕ) :
    List RankedStyle → ℕ → ℝ → List RankGroup → List RankGroup
  | [], _, _, acc => acc
  | item :: rest, currentRank, currentDistance, acc =>
    let roundedDist := roundTo5 item.distance
    if currentDistance = -1 ∨ roundedDist ≠ currentDistance then
      if maxRank < currentRank then acc
      else
        buildRankGroupsAux maxRank rest (currentRank + 1) roundedDist
          (acc ++ [{ rank := currentRank, styles := [item.style], distance := roundedDist }])
    else
      buildRankGroupsAux maxRank rest currentRank currentDistance (appendToLast acc item.style)

/-- `recommendStyles` (utils.ts lines 246-306); the source's default
`maxRank` is `5`. -/
noncomputable def recommendStyles (queryCoord : Coordinate) (styles : List PlotStyle)
    (styleSet : StyleSetType) (maxRank : ℕ) : List RankGroup :=
  buildRankGroupsAux maxRank (rankedByDistance queryCoord styles styleSet) 1 (-1) []

/-- The planar y component used by `generateContourPath`
(utils.ts lines 317 and 325). -/
def contourSecondary (styleSet : StyleSetType) (c : Coordinate) : ℚ :=
  if styleSet = .A then c.y.getD 0 else c.z.getD 0

/-- The planar points of the entities (utils.ts lines 320-327): an entity
without a normalized coordinate maps to `(0, 0)`. -/
def contourPoints (styles : List PlotStyle) (styleSet : StyleSetType) : List (ℚ × ℚ) :=
  styles.map (fun style =>
    match style.normCoord with
    | none => (0, 0)
    | some normCoord => (normCoord.x, contourSecondary styleSet normCoord))

/-- The per-entity distances to the center (utils.ts lines 329-331). -/
noncomputable def contourDistances (styles : List PlotStyle) (styleSet : StyleSetType)
    (centerCoord : Coordinate) : List ℝ :=
  (contourPoints styles styleSet).map (fun p =>
    Real.sqrt (((p.1 - centerCoord.x : ℚ) : ℝ) ^ 2 +
      ((p.2 - contourSecondary styleSet centerCoord : ℚ) : ℝ) ^ 2))

/-- The contour radius: arithmetic mean of the distances (utils.ts line 333). -/
noncomputable def contourRadius (styles : List PlotStyle) (styleSet : StyleSetType)
    (centerCoord : Coordinate) : ℝ :=
  (contourDistances styles styleSet centerCoord).sum /
    ((contourDistances styles styleSet centerCoord).length : ℝ)

/-- `generateContourPath` (utils.ts lines 309-347): 37 points on the circle of
radius `contourRadius` around the center (`for (let i = 0; i <= 36; i++)`). -/
noncomputable def generateContourPath (styles : List PlotStyle) (styleSet : StyleSetType)
    (centerCoord : Coordinate) : List (ℝ × ℝ) :=
  if styles.length = 0 then []
  else
    let centerX := centerCoord.x
    let centerY := contourSecondary styleSet centerCoord
    let radius := contourRadius styles styleSet centerCoord
    (List.range 37).map (fun i : ℕ =>
      let angle : ℝ := ((i : ℝ) / 36) * (2 * Real.pi)
      ((centerX : ℝ) + radius * Real.cos angle,
       (centerY : ℝ) + radius * Real.sin angle))

/-- Invariant satisfied by the output of the grouping loop, relative to the
loop state it was entered with: bounded length, ranks `1..n` in order,
strictly increasing group distances, non-empty groups, a frame condition
(every output group is an untouched front group, an extension of the last
open group, or a group at a strictly later distance), and tie-completeness
(every remaining entity whose rounded distance matches an output group's
distance ends up inside that group). -/
def GroupsOk (maxRank : ℕ) (items : List RankedStyle) (currentDistance : ℝ)
    (acc res : List RankGroup) : Prop :=
  res.length ≤ maxRank ∧
  res.map (fun g => g.rank) = List.range' 1 res.length ∧
  List.Pairwise (fun g1 g2 => g1.distance < g2.distance) res ∧
  (∀ g ∈ res, g.styles ≠ []) ∧
  (∀ g ∈ res,
    g ∈ acc.dropLast ∨
    (∃ h : acc ≠ [], g.distance = (acc.getLast h).distance ∧
      ∃ tail, g.styles = (acc.getLast h).styles ++ tail) ∨
    currentDistance < g.distance) ∧
  (∀ g ∈ res, ∀ item ∈ items, roundTo5 item.distance = g.distance →
    item.style ∈ g.styles)

/-! ## Correctness of the lower-bound binary search -/

theorem sorted_getD_le {arr : List ℚ} (hs : arr.Sorted (· ≤ ·)) {i j : ℕ}
    (hij : i ≤ j) (hj : j < arr.length) : arr.getD i 0 ≤ arr.getD j 0 := by
  rcases eq_or_lt_of_le hij with rfl | hlt
  · exact le_refl _
  · rw [List.getD_eq_get _ _ (lt_trans hlt hj), List.getD_eq_get _ _ hj]
    exact List.pairwise_iff_get.mp hs ⟨i, lt_trans hlt hj⟩ ⟨j, hj⟩ hlt

/-- The binary-search loop, run with enough fuel on a sorted array that
contains `value` in the window `[lo, hi]` while everything left of `lo` is
strictly below `value`, lands on the first occurrence of `value`. -/
theorem getRankLoop_spec (sortedArr : List ℚ) (value : ℚ)
    (hs : sortedArr.Sorted (· ≤ ·)) :
    ∀ fuel lo hi : ℕ, hi - lo ≤ fuel → hi < sortedArr.length →
      (∀ j, j < lo → sortedArr.getD j 0 < value) →
      (∃ j, lo ≤ j ∧ j ≤ hi ∧ sortedArr.getD j 0 = value) →
      sortedArr.getD (getRankLoop sortedArr value fuel lo hi) 0 = value ∧
      (∀ j, j < getRankLoop sortedArr value fuel lo hi → sortedArr.getD j 0 < value) ∧
      getRankLoop sortedArr value fuel lo hi ≤ hi := by
  intro fuel
  induction fuel with
  | zero =>
    intro lo hi hfuel _ hlow hex
    obtain ⟨j, hjlo, hjhi, hjval⟩ := hex
    have hj : j = lo := by omega
    subst hj
    simp only [getRankLoop]
    exact ⟨hjval, hlow, by omega⟩
  | succ fuel ih =>
    intro lo hi hfuel hhi hlow hex
    obtain ⟨j, hjlo, hjhi, hjval⟩ := hex
    by_cases hlh : lo < hi
    · by_cases hcmp : sortedArr.getD ((lo + hi) / 2) 0 < value
      · have hrec : getRankLoop sortedArr value (fuel + 1) lo hi
            = getRankLoop sortedArr value fuel ((lo + hi) / 2 + 1) hi := by
          simp only [getRankLoop, if_pos hlh, if_pos hcmp]
        rw [hrec]
        refine ih ((lo + hi) / 2 + 1) hi (by omega) hhi ?_ ?_
        · intro j' hj'
          rcases lt_or_le j' lo with h | h
          · exact hlow j' h
          · exact lt_of_le_of_lt (sorted_getD_le hs (by omega) (by omega)) hcmp
        · refine ⟨j, ?_, hjhi, hjval⟩
          by_contra hcon
          push_neg at hcon
          have hle : sortedArr.getD j 0 ≤ sortedArr.getD ((lo + hi) / 2) 0 :=
            sorted_getD_le hs (by omega) (by omega)
          rw [hjval] at hle
          exact absurd (lt_of_le_of_lt hle hcmp) (lt_irrefl value)
      · have hrec : getRankLoop sortedArr value (fuel + 1) lo hi
            = getRankLoop sortedArr value fuel lo ((lo + hi) / 2) := by
          simp only [getRankLoop, if_pos hlh, if_neg hcmp]
        rw [hrec]
        have hwit : ∃ j', lo ≤ j' ∧ j' ≤ (lo + hi) / 2 ∧ sortedArr.getD j' 0 = value := by
          rcases le_or_lt j ((lo + hi) / 2) with h | h
          · exact ⟨j, hjlo, h, hjval⟩
          · have h1 : sortedArr.getD ((lo + hi) / 2) 0 ≤ sortedArr.getD j 0 :=
              sorted_getD_le hs (le_of_lt h) (by omega)
            rw [hjval] at h1
            exact ⟨(lo + hi) / 2, by omega, le_refl _,
              le_antisymm h1 (le_of_not_lt hcmp)⟩
        have hres := ih lo ((lo + hi) / 2) (by omega) (by omega) hlow hwit
        exact ⟨hres.1, hres.2.1, le_trans hres.2.2 (by omega)⟩
    · have hj : j = lo := by omega
      rw [hj] at hjval
      have hrec : getRankLoop sortedArr value (fuel + 1) lo hi = lo := by
        simp only [getRankLoop, if_neg hlh]
      rw [hrec]
      exact ⟨hjval, hlow, by omega⟩

/-- On a degenerate (length ≤ 1) array `getRank` is `0.5`. -/
theorem getRank_degenerate (value : ℚ) (sortedArr : List ℚ)
    (h1 : sortedArr.length ≤ 1) : getRank value sortedArr = some (1 / 2) := by
  simp [getRank, h1]

/-- On a non-degenerate array a value that is not present gets no rank. -/
theorem getRank_not_mem (value : ℚ) (sortedArr : List ℚ)
    (h2 : 2 ≤ sortedArr.length) (hv : value ∉ sortedArr) :
    getRank value sortedArr = none := by
  have hlen : ¬ sortedArr.length ≤ 1 := by omega
  simp only [getRank, if_neg hlen]
  rw [if_neg]
  rintro ⟨hlt, heq⟩
  rw [List.getD_eq_get _ _ hlt] at heq
  exact hv (heq ▸ List.get_mem sortedArr _ hlt)

/-- On a sorted non-degenerate array a present value is ranked by the index
of its first occurrence, divided by `length - 1`. -/
theorem getRank_first_occ (value : ℚ) (sortedArr : List ℚ)
    (hs : sortedArr.Sorted (· ≤ ·)) (h2 : 2 ≤ sortedArr.length)
    (i : ℕ) (hi : i < sortedArr.length) (hval : sortedArr.getD i 0 = value)
    (hfirst : ∀ j, j < i → sortedArr.getD j 0 ≠ value) :
    getRank value sortedArr = some ((i : ℚ) / ((sortedArr.length : ℚ) - 1)) := by
  have hlen : ¬ sortedArr.length ≤ 1 := by omega
  have hspec := getRankLoop_spec sortedArr value hs (sortedArr.length - 1) 0
      (sortedArr.length - 1) (le_refl _) (by omega)
      (fun j hj => absurd hj (Nat.not_lt_zero j)) ⟨i, Nat.zero_le _, by omega, hval⟩
  obtain ⟨hrval, hrlow, hrle⟩ := hspec
  have hri : getRankLoop sortedArr value (sortedArr.length - 1) 0 (sortedArr.length - 1) = i := by
    rcases lt_trichotomy
        (getRankLoop sortedArr value (sortedArr.length - 1) 0 (sortedArr.length - 1)) i with
      h | h | h
    · exact absurd hrval (hfirst _ h)
    · exact h
    · exact absurd (hval ▸ hrlow i h) (lt_irrefl value)
  simp only [getRank, if_neg hlen, hri]
  rw [if_pos ⟨hi, hval⟩]

/-- Every member of a list has a first occurrence. -/
theorem exists_first_occ (value : ℚ) (arr : List ℚ) (hv : value ∈ arr) :
    ∃ i, i < arr.length ∧ arr.getD i 0 = value ∧
      ∀ j, j < i → arr.getD j 0 ≠ value := by
  have hex : ∃ i, i < arr.length ∧ arr.getD i 0 = value := by
    obtain ⟨⟨i, hi⟩, hget⟩ := List.mem_iff_get.mp hv
    exact ⟨i, hi, by rw [List.getD_eq_get _ _ hi]; exact hget⟩
  obtain ⟨hi0, hval0⟩ := Nat.find_spec hex
  refine ⟨Nat.find hex, hi0, hval0, fun j hj hcon => ?_⟩
  exact Nat.find_min hex hj ⟨lt_trans hj hi0, hcon⟩

/-! ## Shape of the normalization result -/

theorem rankMap_x_eq (styles : List StyleMaster) (ss : StyleSetType) :
    (calculateRankBasedNormalization styles ss).2.x
      = List.insertionSort (· ≤ ·) (styles.map (·.plLs)) := rfl

theorem rankMap_y_A_eq (styles : List StyleMaster) :
    (calculateRankBasedNormalization styles .A).2.y
      = List.insertionSort (· ≤ ·)
          ((styles.map (·.biKae)).filter (fun v => decide (v ≠ -1))) := rfl

theorem rankMap_y_B_eq (styles : List StyleMaster) :
    (calculateRankBasedNormalization styles .B).2.y = [] := rfl

theorem rankMap_z_B_eq (styles : List StyleMaster) :
    (calculateRankBasedNormalization styles .B).2.z
      = List.insertionSort (· ≤ ·)
          ((styles.map (·.kae)).filter (fun v => decide (v ≠ -1 ∧ 1 / 10000 ≤ v))) := rfl

theorem rankMap_z_A_eq (styles : List StyleMaster) :
    (calculateRankBasedNormalization styles .A).2.z = [] := rfl

theorem normalizedStyles_A_eq (styles : List StyleMaster) :
    (calculateRankBasedNormalization styles .A).1
      = styles.map (fun style =>
          { style := style
            normCoord := some
              { x := (getRank style.plLs
                  (calculateRankBasedNormalization styles .A).2.x).getD (1 / 2)
                y := getRank style.biKae (calculateRankBasedNormalization styles .A).2.y
                z := none } }) := rfl

theorem normalizedStyles_B_eq (styles : List StyleMaster) :
    (calculateRankBasedNormalization styles .B).1
      = styles.map (fun style =>
          { style := style
            normCoord := some
              { x := (getRank style.plLs
                  (calculateRankBasedNormalization styles .B).2.x).getD (1 / 2)
                y := none
                z := getRank style.kae (calculateRankBasedNormalization styles .B).2.z } }) := rfl

/-- Every axis array of a rank map produced by `normalize` is sorted
ascending. -/
theorem rankMap_axis_sorted (styles : List StyleMaster) (ss : StyleSetType)
    (arr : List ℚ)
    (harr : arr = (calculateRankBasedNormalization styles ss).2.x ∨
            arr = (calculateRankBasedNormalization styles ss).2.y ∨
            arr = (calculateRankBasedNormalization styles ss).2.z) :
    arr.Sorted (· ≤ ·) := by
  cases ss <;> rcases harr with h | h | h <;> subst h
  · rw [rankMap_x_eq]; exact List.sorted_insertionSort _ _
  · rw [rankMap_y_A_eq]; exact List.sorted_insertionSort _ _
  · rw [rankMap_z_A_eq]; exact List.sorted_nil
  · rw [rankMap_x_eq]; exact List.sorted_insertionSort _ _
  · rw [rankMap_y_B_eq]; exact List.sorted_nil
  · rw [rankMap_z_B_eq]; exact List.sorted_insertionSort _ _

/-- The sentinel `-1` never survives the `y` filter. -/
theorem neg_one_not_mem_rankMap_y (styles : List StyleMaster) (ss : StyleSetType) :
    (-1 : ℚ) ∉ (calculateRankBasedNormalization styles ss).2.y := by
  cases ss
  · rw [rankMap_y_A_eq]
    intro hmem
    have hf := (List.perm_insertionSort (· ≤ ·) _).mem_iff.mp hmem
    have := List.of_mem_filter hf
    simp at this
  · rw [rankMap_y_B_eq]
    exact List.not_mem_nil _

/-- Membership in the `z` axis of a type-B rank map: exactly the raw z values
that differ from the sentinel and reach the `1e-4` threshold (a signed
comparison in the source). -/
theorem mem_rankMap_z_iff (styles : List StyleMaster) (v : ℚ) :
    v ∈ (calculateRankBasedNormalization styles .B).2.z ↔
      (v ∈ styles.map (·.kae) ∧ ¬(v = -1 ∨ v < 1 / 10000)) := by
  rw [rankMap_z_B_eq, (List.perm_insertionSort (· ≤ ·) _).mem_iff, List.mem_filter]
  constructor
  · rintro ⟨hmem, hpred⟩
    simp only [decide_eq_true_eq] at hpred
    exact ⟨hmem, by push_neg; exact ⟨hpred.1, hpred.2⟩⟩
  · rintro ⟨hmem, hpred⟩
    push_neg at hpred
    exact ⟨hmem, by simp only [decide_eq_true_eq]; exact ⟨hpred.1, hpred.2⟩⟩

theorem normalizedStyles_length (styles : List StyleMaster) (ss : StyleSetType) :
    (calculateRankBasedNormalization styles ss).1.length = styles.length := by
  cases ss
  · rw [normalizedStyles_A_eq, List.length_map]
  · rw [normalizedStyles_B_eq, List.length_map]

/-- C5: inside a rank map produced by `normalize`, a degenerate axis array
ranks every value `0.5`; on an axis array of length `n ≥ 2` a value found at
first-occurrence index `i` is ranked `i/(n-1)`; and each normalized entity
carries exactly these `getRank` values in its cached coordinate. -/
theorem normalize_rank_first_occurrence (styles : List StyleMaster) (ss : StyleSetType)
    (arr : List ℚ)
    (harr : arr = (calculateRankBasedNormalization styles ss).2.x ∨
            arr = (calculateRankBasedNormalization styles ss).2.y ∨
            arr = (calculateRankBasedNormalization styles ss).2.z)
    (v : ℚ) :
    (arr.length ≤ 1 → getRank v arr = some (1 / 2)) ∧
    (∀ i, i < arr.length → arr.getD i 0 = v →
      (∀ j, j < i → arr.getD j 0 ≠ v) → 2 ≤ arr.length →
      getRank v arr = some ((i : ℚ) / ((arr.length : ℚ) - 1))) ∧
    ((calculateRankBasedNormalization styles ss).1.map (fun t => t.normCoord)
      = styles.map (fun style => some
        { x := (getRank style.plLs
            (calculateRankBasedNormalization styles ss).2.x).getD (1 / 2)
          y := if ss = .A then
              getRank style.biKae (calculateRankBasedNormalization styles ss).2.y
            else none
          z := if ss = .B then
              getRank style.kae (calculateRankBasedNormalization styles ss).2.z
            else none })) := by
  have hs := rankMap_axis_sorted styles ss arr harr
  refine ⟨fun h1 => getRank_degenerate v arr h1,
    fun i hi hval hfirst h2 => getRank_first_occ v arr hs h2 i hi hval hfirst, ?_⟩
  cases ss
  · rw [normalizedStyles_A_eq, List.map_map]
    simp
  · rw [normalizedStyles_B_eq, List.map_map]
    simp

/-- Concrete x axis array used by the C5 witness. -/
theorem rankMapX_example :
    (calculateRankBasedNormalization
      [⟨1/2, 3/10, 0, true⟩, ⟨8/10, -1, 0, true⟩, ⟨2/10, 7/10, 0, true⟩] .A).2.x
      = [1/5, 1/2, 4/5] := by
  rw [rankMap_x_eq]
  norm_num [List.insertionSort, List.orderedInsert]

/-- Witness for C5: in the concrete rank map with x array `[0.2, 0.5, 0.8]`,
the raw value `0.5` sits at first-occurrence index 1 and is ranked
`1/(3-1) = 0.5`. -/
theorem normalize_rank_first_occurrence_witness :
    2 ≤ ((calculateRankBasedNormalization
        [⟨1/2, 3/10, 0, true⟩, ⟨8/10, -1, 0, true⟩, ⟨2/10, 7/10, 0, true⟩] .A).2.x).length ∧
    getRank (1/2) ((calculateRankBasedNormalization
        [⟨1/2, 3/10, 0, true⟩, ⟨8/10, -1, 0, true⟩, ⟨2/10, 7/10, 0, true⟩] .A).2.x)
      = some (1/2) := by
  constructor
  · rw [rankMapX_example]; norm_num
  · have h := (normalize_rank_first_occurrence
      [⟨1/2, 3/10, 0, true⟩, ⟨8/10, -1, 0, true⟩, ⟨2/10, 7/10, 0, true⟩] .A _
      (Or.inl rfl) (1/2)).2.1 1
      (by rw [rankMapX_example]; norm_num)
      (by rw [rankMapX_example]; rfl)
      (by intro j hj; interval_cases j; rw [rankMapX_example]; norm_num [List.getD])
      (by rw [rankMapX_example]; norm_num)
    rw [rankMapX_example] at h ⊢
    norm_num at h
    exact h

/-- C8: two raw values both present in an axis array of a rank map produced by
`normalize` are ranked in the order of their raw values. -/
theorem normalize_rank_monotone (styles : List StyleMaster) (ss : StyleSetType)
    (arr : List ℚ)
    (harr : arr = (calculateRankBasedNormalization styles ss).2.x ∨
            arr = (calculateRankBasedNormalization styles ss).2.y ∨
            arr = (calculateRankBasedNormalization styles ss).2.z)
    (a b : ℚ) (hab : a < b) (ha : a ∈ arr) (hb : b ∈ arr) :
    ∃ ra rb, getRank a arr = some ra ∧ getRank b arr = some rb ∧ ra ≤ rb := by
  have hs := rankMap_axis_sorted styles ss arr harr
  rcases le_or_lt arr.length 1 with h1 | h1
  · exact ⟨1/2, 1/2, getRank_degenerate a arr h1, getRank_degenerate b arr h1, le_refl _⟩
  · obtain ⟨ia, hia, hvala, hfirsta⟩ := exists_first_occ a arr ha
    obtain ⟨ib, hib, hvalb, hfirstb⟩ := exists_first_occ b arr hb
    have hiab : ia ≤ ib := by
      by_contra hcon
      push_neg at hcon
      have hle := sorted_getD_le hs (le_of_lt hcon) hia
      rw [hvala, hvalb] at hle
      exact absurd (lt_of_lt_of_le hab hle) (lt_irrefl a)
    refine ⟨_, _, getRank_first_occ a arr hs h1 ia hia hvala hfirsta,
      getRank_first_occ b arr hs h1 ib hib hvalb hfirstb, ?_⟩
    have hpos : (0 : ℚ) < (arr.length : ℚ) - 1 := by
      have h2 : (2 : ℚ) ≤ (arr.length : ℚ) := by exact_mod_cast h1
      linarith
    exact (div_le_div_right hpos).mpr (by exact_mod_cast hiab)

/-- Concrete x axis array used by the C8 witness. -/
theorem rankMapX_pair :
    (calculateRankBasedNormalization [⟨1, 0, 0, true⟩, ⟨2, 0, 0, true⟩] .A).2.x
      = [1, 2] := by
  rw [rankMap_x_eq]
  norm_num [List.insertionSort, List.orderedInsert]

/-- Witness for C8 on the concrete x array `[1, 2]`. -/
theorem normalize_rank_monotone_witness :
    (1 : ℚ) < 2 ∧
    ∃ ra rb,
      getRank 1 ((calculateRankBasedNormalization
        [⟨1, 0, 0, true⟩, ⟨2, 0, 0, true⟩] .A).2.x) = some ra ∧
      getRank 2 ((calculateRankBasedNormalization
        [⟨1, 0, 0, true⟩, ⟨2, 0, 0, true⟩] .A).2.x) = some rb ∧ ra ≤ rb := by
  refine ⟨by norm_num, ?_⟩
  exact normalize_rank_monotone [⟨1, 0, 0, true⟩, ⟨2, 0, 0, true⟩] .A _ (Or.inl rfl)
    1 2 (by norm_num) (by rw [rankMapX_pair]; simp) (by rw [rankMapX_pair]; simp)

/-- C1 (amended): the y axis array of a type-A rank map never contains the
sentinel `-1`; and whenever that array has at least two admissible values, an
entity with raw `y = -1` has its normalized `y` component absent. -/
theorem normalize_y_sentinel_amended (styles : List StyleMaster) :
    ((-1 : ℚ) ∉ (calculateRankBasedNormalization styles .A).2.y) ∧
    (2 ≤ (calculateRankBasedNormalization styles .A).2.y.length →
      ∀ t ∈ (calculateRankBasedNormalization styles .A).1, t.style.biKae = -1 →
        ∃ nc, t.normCoord = some nc ∧ nc.y = none) := by
  refine ⟨neg_one_not_mem_rankMap_y styles .A, fun h2 t ht hsent => ?_⟩
  rw [normalizedStyles_A_eq] at ht
  obtain ⟨style, hstyle, rfl⟩ := List.mem_map.mp ht
  simp only at hsent
  refine ⟨_, rfl, ?_⟩
  show getRank style.biKae (calculateRankBasedNormalization styles .A).2.y = none
  rw [hsent]
  exact getRank_not_mem (-1) _ h2 (neg_one_not_mem_rankMap_y styles .A)

/-- C1 counterexample: when only one admissible y value exists, the sentinel
entity (raw `y = -1`) still receives a numeric normalized y (the degenerate
`0.5` fallback), so its y component is not absent. -/
theorem normalize_y_sentinel_cex :
    ((calculateRankBasedNormalization [⟨0, -1, 0, true⟩, ⟨1, 3/10, 0, true⟩] .A).1.map
        (fun t => (t.style.biKae, t.normCoord.map (fun nc => nc.y)))) =
      [(-1, some (some (1/2))), (3/10, some (some (1/2)))] := by
  norm_num +decide [calculateRankBasedNormalization, getRank, getRankLoop,
    List.insertionSort, List.orderedInsert, List.filter]

/-- Concrete normalized entity list used by the C1 witness. -/
theorem normalizedStyles_example :
    (calculateRankBasedNormalization
        [⟨0, -1, 0, true⟩, ⟨1, 2/10, 0, true⟩, ⟨2, 7/10, 0, true⟩] .A).1 =
      [⟨⟨0, -1, 0, true⟩, some ⟨0, none, none⟩⟩,
       ⟨⟨1, 2/10, 0, true⟩, some ⟨1/2, some 0, none⟩⟩,
       ⟨⟨2, 7/10, 0, true⟩, some ⟨1, some 1, none⟩⟩] := by
  norm_num +decide [calculateRankBasedNormalization, getRank, getRankLoop,
    List.insertionSort, List.orderedInsert, List.filter]

/-- Concrete y axis array used by the C1 witness. -/
theorem rankMapY_example :
    (calculateRankBasedNormalization
        [⟨0, -1, 0, true⟩, ⟨1, 2/10, 0, true⟩, ⟨2, 7/10, 0, true⟩] .A).2.y
      = [2/10, 7/10] := by
  rw [rankMap_y_A_eq]
  norm_num [List.insertionSort, List.orderedInsert, List.filter]

/-- Witness for (amended) C1: with two admissible y values, the sentinel
entity's normalized y is absent. -/
theorem normalize_y_sentinel_amended_witness :
    2 ≤ (calculateRankBasedNormalization
        [⟨0, -1, 0, true⟩, ⟨1, 2/10, 0, true⟩, ⟨2, 7/10, 0, true⟩] .A).2.y.length ∧
    ∃ nc, (⟨⟨0, -1, 0, true⟩, some ⟨0, none, none⟩⟩ : PlotStyle).normCoord = some nc ∧
      nc.y = none := by
  have hlen : 2 ≤ (calculateRankBasedNormalization
      [⟨0, -1, 0, true⟩, ⟨1, 2/10, 0, true⟩, ⟨2, 7/10, 0, true⟩] .A).2.y.length := by
    rw [rankMapY_example]; norm_num
  refine ⟨hlen, ?_⟩
  exact (normalize_y_sentinel_amended _).2 hlen _
    (by rw [normalizedStyles_example]; exact List.mem_cons_self _ _) rfl

/-- C2 (amended): a raw z value survives into the z axis array of a type-B
rank map iff it differs from the sentinel `-1` and is at least `1e-4` (a
signed comparison, so every smaller value, including negative values of large
magnitude, is excluded); and whenever the array has at least two values, an
entity's normalized z is absent exactly when its raw z was excluded. -/
theorem normalize_z_sentinel_amended (styles : List StyleMaster) :
    (∀ v : ℚ, v ∈ (calculateRankBasedNormalization styles .B).2.z ↔
      (v ∈ styles.map (·.kae) ∧ ¬(v = -1 ∨ v < 1 / 10000))) ∧
    (2 ≤ (calculateRankBasedNormalization styles .B).2.z.length →
      ∀ t ∈ (calculateRankBasedNormalization styles .B).1,
        ∃ nc, t.normCoord = some nc ∧
          (nc.z = none ↔ (t.style.kae = -1 ∨ t.style.kae < 1 / 10000))) := by
  refine ⟨mem_rankMap_z_iff styles, fun h2 t ht => ?_⟩
  rw [normalizedStyles_B_eq] at ht
  obtain ⟨style, hstyle, rfl⟩ := List.mem_map.mp ht
  refine ⟨_, rfl, ?_⟩
  show getRank style.kae (calculateRankBasedNormalization styles .B).2.z = none ↔
    ((⟨style, _⟩ : PlotStyle).style.kae = -1 ∨ (⟨style, _⟩ : PlotStyle).style.kae < 1 / 10000)
  simp only
  constructor
  · intro hnone
    by_contra hcon
    have hmem : style.kae ∈ (calculateRankBasedNormalization styles .B).2.z :=
      (mem_rankMap_z_iff styles _).mpr ⟨List.mem_map_of_mem _ hstyle, hcon⟩
    obtain ⟨i, hi, hval, hfirst⟩ := exists_first_occ _ _ hmem
    have hsome := getRank_first_occ _ _
      (rankMap_axis_sorted styles .B _ (Or.inr (Or.inr rfl))) h2 i hi hval hfirst
    rw [hsome] at hnone
    exact absurd hnone (by simp)
  · intro hexcl
    apply getRank_not_mem _ _ h2
    intro hmem
    exact absurd hexcl (((mem_rankMap_z_iff styles _).mp hmem).2)

/-- C2 counterexample: `z = -1/2` has magnitude at least `1e-4` and differs
from the sentinel, yet it is excluded from the z axis array (the source
compares signed values, not magnitudes); and with a degenerate z array the
sentinel entity still receives a numeric normalized z. -/
theorem normalize_z_sentinel_cex :
    ((-1/2 : ℚ) ∉ (calculateRankBasedNormalization
        [⟨0, 0, -1/2, true⟩, ⟨1, 0, 2/10, true⟩, ⟨2, 0, 3/10, true⟩] .B).2.z) ∧
    ((calculateRankBasedNormalization [⟨0, 0, -1, true⟩, ⟨1, 0, 5/10, true⟩] .B).1.map
        (fun t => (t.style.kae, t.normCoord.map (fun nc => nc.z)))) =
      [(-1, some (some (1/2))), (5/10, some (some (1/2)))] := by
  constructor
  · have hz : (calculateRankBasedNormalization
        [⟨0, 0, -1/2, true⟩, ⟨1, 0, 2/10, true⟩, ⟨2, 0, 3/10, true⟩] .B).2.z
        = [2/10, 3/10] := by
      rw [rankMap_z_B_eq]
      norm_num [List.insertionSort, List.orderedInsert, List.filter]
    rw [hz]
    norm_num
  · norm_num +decide [calculateRankBasedNormalization, getRank, getRankLoop,
      List.insertionSort, List.orderedInsert, List.filter]

/-- Concrete z axis array used by the C2 witness. -/
theorem rankMapZ_example :
    (calculateRankBasedNormalization
        [⟨0, 0, -1, true⟩, ⟨1, 0, 2/10, true⟩, ⟨2, 0, 3/10, true⟩] .B).2.z
      = [2/10, 3/10] := by
  rw [rankMap_z_B_eq]
  norm_num [List.insertionSort, List.orderedInsert, List.filter]

/-- Concrete normalized entity list used by the C2 witness. -/
theorem normalizedStyles_example_B :
    (calculateRankBasedNormalization
        [⟨0, 0, -1, true⟩, ⟨1, 0, 2/10, true⟩, ⟨2, 0, 3/10, true⟩] .B).1 =
      [⟨⟨0, 0, -1, true⟩, some ⟨0, none, none⟩⟩,
       ⟨⟨1, 0, 2/10, true⟩, some ⟨1/2, none, some 0⟩⟩,
       ⟨⟨2, 0, 3/10, true⟩, some ⟨1, none, some 1⟩⟩] := by
  norm_num +decide [calculateRankBasedNormalization, getRank, getRankLoop,
    List.insertionSort, List.orderedInsert, List.filter]

/-- Witness for (amended) C2: with two admissible z values, the sentinel
entity's normalized z is absent, and the absence criterion is the signed
exclusion rule. -/
theorem normalize_z_sentinel_amended_witness :
    2 ≤ (calculateRankBasedNormalization
        [⟨0, 0, -1, true⟩, ⟨1, 0, 2/10, true⟩, ⟨2, 0, 3/10, true⟩] .B).2.z.length ∧
    ∃ nc, (⟨⟨0, 0, -1, true⟩, some ⟨0, none, none⟩⟩ : PlotStyle).normCoord = some nc ∧
      (nc.z = none ↔
        ((⟨⟨0, 0, -1, true⟩, some ⟨0, none, none⟩⟩ : PlotStyle).style.kae = -1 ∨
         (⟨⟨0, 0, -1, true⟩, some ⟨0, none, none⟩⟩ : PlotStyle).style.kae < 1 / 10000)) := by
  have hlen : 2 ≤ (calculateRankBasedNormalization
      [⟨0, 0, -1, true⟩, ⟨1, 0, 2/10, true⟩, ⟨2, 0, 3/10, true⟩] .B).2.z.length := by
    rw [rankMapZ_example]; norm_num
  refine ⟨hlen, ?_⟩
  exact (normalize_z_sentinel_amended _).2 hlen _
    (by rw [normalizedStyles_example_B]; exact List.mem_cons_self _ _)

/-! ## Denormalization -/

/-- On a non-degenerate array the two interpolation branches of
`getValueAtRank` collapse into one linear-interpolation formula. -/
theorem getValueAtRank_formula (rank : ℚ) (sortedArr : List ℚ)
    (h2 : 2 ≤ sortedArr.length) :
    getValueAtRank rank sortedArr =
      sortedArr.getD (⌊max 0 (min 1 rank) * ((sortedArr.length : ℚ) - 1)⌋).toNat 0 *
        (1 - (max 0 (min 1 rank) * ((sortedArr.length : ℚ) - 1) -
          (⌊max 0 (min 1 rank) * ((sortedArr.length : ℚ) - 1)⌋ : ℚ))) +
      sortedArr.getD (⌈max 0 (min 1 rank) * ((sortedArr.length : ℚ) - 1)⌉).toNat 0 *
        (max 0 (min 1 rank) * ((sortedArr.length : ℚ) - 1) -
          (⌊max 0 (min 1 rank) * ((sortedArr.length : ℚ) - 1)⌋ : ℚ)) := by
  have h0 : ¬ sortedArr.length = 0 := by omega
  have h1 : ¬ sortedArr.length = 1 := by omega
  simp only [getValueAtRank, if_neg h0, if_neg h1]
  by_cases hfc : ⌊max 0 (min 1 rank) * ((sortedArr.length : ℚ) - 1)⌋
      = ⌈max 0 (min 1 rank) * ((sortedArr.length : ℚ) - 1)⌉
  · rw [if_pos hfc]
    have ht : (⌊max 0 (min 1 rank) * ((sortedArr.length : ℚ) - 1)⌋ : ℚ)
        = max 0 (min 1 rank) * ((sortedArr.length : ℚ) - 1) :=
      le_antisymm (Int.floor_le _) (by rw [hfc]; exact Int.le_ceil _)
    rw [← hfc]
    have hw : max 0 (min 1 rank) * ((sortedArr.length : ℚ) - 1) -
        (⌊max 0 (min 1 rank) * ((sortedArr.length : ℚ) - 1)⌋ : ℚ) = 0 := by
      rw [ht]; ring
    rw [hw]
    ring
  · rw [if_neg hfc]

/-- C6: `denormalize` applies `getValueAtRank` exactly to the present
coordinate components; `getValueAtRank` yields `0` on an empty array, the
sole element on a singleton, and otherwise the clamp/scale/interpolate
formula; in particular rank `0.5` against the y array `[0.3, 0.7]`
denormalizes to `0.5`. -/
theorem denormalize_interpolation (normCoord : Coordinate) (rankMap : RankMap)
    (r : ℚ) (arr : List ℚ) :
    ((denormalizeRankBased normCoord rankMap .A).x = getValueAtRank normCoord.x rankMap.x) ∧
    ((denormalizeRankBased normCoord rankMap .A).y
      = normCoord.y.map (fun t => getValueAtRank t rankMap.y)) ∧
    ((denormalizeRankBased normCoord rankMap .B).z
      = normCoord.z.map (fun t => getValueAtRank t rankMap.z)) ∧
    (arr.length = 0 → getValueAtRank r arr = 0) ∧
    (arr.length = 1 → getValueAtRank r arr = arr.getD 0 0) ∧
    (2 ≤ arr.length → getValueAtRank r arr =
      arr.getD (⌊max 0 (min 1 r) * ((arr.length : ℚ) - 1)⌋).toNat 0 *
        (1 - (max 0 (min 1 r) * ((arr.length : ℚ) - 1) -
          (⌊max 0 (min 1 r) * ((arr.length : ℚ) - 1)⌋ : ℚ))) +
      arr.getD (⌈max 0 (min 1 r) * ((arr.length : ℚ) - 1)⌉).toNat 0 *
        (max 0 (min 1 r) * ((arr.length : ℚ) - 1) -
          (⌊max 0 (min 1 r) * ((arr.length : ℚ) - 1)⌋ : ℚ))) ∧
    ((denormalizeRankBased ⟨0, some (1/2), none⟩ ⟨[], [3/10, 7/10], []⟩ .A).y
      = some (1/2)) := by
  refine ⟨rfl, rfl, rfl, ?_, ?_, getValueAtRank_formula r arr, ?_⟩
  · intro h0
    simp [getValueAtRank, h0]
  · intro h1
    have h0 : ¬ arr.length = 0 := by omega
    simp [getValueAtRank, h0, h1]
  · have hc : (⌈(1/2 : ℚ)⌉ : ℤ) = 1 := by rw [Int.ceil_eq_iff]; norm_num
    have hf : (⌊(1/2 : ℚ)⌋ : ℤ) = 0 := by norm_num
    norm_num [denormalizeRankBased, getValueAtRank]
    rw [hc]
    norm_num [Int.fract, hf]

/-- Witness for C6: the degenerate clauses at concrete arrays, and the
interpolation clause evaluated on the y array `[0.3, 0.7]` at rank `0.5`. -/
theorem denormalize_interpolation_witness :
    (([] : List ℚ).length = 0 ∧ getValueAtRank (1/2) ([] : List ℚ) = 0) ∧
    (([(42 : ℚ)]).length = 1 ∧ getValueAtRank (1/2) [(42 : ℚ)] = ([(42 : ℚ)]).getD 0 0) ∧
    (2 ≤ ([3/10, 7/10] : List ℚ).length ∧
      getValueAtRank (1/2) ([3/10, 7/10] : List ℚ) = 1/2) := by
  refine ⟨⟨rfl, ?_⟩, ⟨rfl, ?_⟩, ⟨by norm_num, ?_⟩⟩
  · exact (denormalize_interpolation ⟨0, none, none⟩ ⟨[], [], []⟩ (1/2) []).2.2.2.1 rfl
  · exact (denormalize_interpolation ⟨0, none, none⟩ ⟨[], [], []⟩ (1/2) [42]).2.2.2.2.1 rfl
  · have h := (denormalize_interpolation ⟨0, none, none⟩ ⟨[], [], []⟩ (1/2)
      ([3/10, 7/10] : List ℚ)).2.2.2.2.2.1 (by norm_num)
    rw [h]
    have hc : (⌈(1/2 : ℚ)⌉ : ℤ) = 1 := by rw [Int.ceil_eq_iff]; norm_num
    have hf : (⌊(1/2 : ℚ)⌋ : ℤ) = 0 := by norm_num
    norm_num
    rw [hc]
    have ht1 : Int.toNat 1 = 1 := rfl
    rw [ht1]
    norm_num

/-! ## Absence of a not-ready failure channel -/

/-- C3 (amended): neither operation has a failure channel for the not-ready
state. `denormalize` against the absent (empty) rank map silently computes
fallback values (`0` for every present component), and `recommend` over
entities that lack a normalized coordinate silently computes the empty
list. -/
theorem notReady_silent_fallback (normCoord : Coordinate) (styleSet : StyleSetType)
    (queryCoord : Coordinate) (styles : List PlotStyle) (maxRank : ℕ) :
    (denormalizeRankBased normCoord ⟨[], [], []⟩ styleSet
      = ⟨0, if styleSet = .A then normCoord.y.map (fun _ => 0) else none,
           if styleSet = .B then normCoord.z.map (fun _ => 0) else none⟩) ∧
    ((∀ s ∈ styles, s.normCoord = none) →
      recommendStyles queryCoord styles styleSet maxRank = []) := by
  constructor
  · cases styleSet <;> simp [denormalizeRankBased, getValueAtRank]
  · intro hnone
    have helig : eligibleStyles styles styleSet = [] := by
      rw [eligibleStyles, List.filter_eq_nil]
      intro s hs
      simp [isEligible, hnone s hs]
    simp [recommendStyles, rankedByDistance, helig, buildRankGroupsAux]

/-- C3 counterexample: invoked in the not-ready state (no rank map yet, no
normalized coordinates yet) both operations return ordinary results — a
fallback coordinate and the empty list — instead of surfacing any distinct
not-ready failure. -/
theorem notReady_cex :
    (denormalizeRankBased ⟨1/2, some (1/2), none⟩ ⟨[], [], []⟩ .A
      = ⟨0, some 0, none⟩) ∧
    (recommendStyles ⟨0, none, none⟩ [⟨⟨0, 0, 0, true⟩, none⟩] .A 5 = []) := by
  constructor
  · simp [denormalizeRankBased, getValueAtRank]
  · have helig : eligibleStyles [⟨⟨0, 0, 0, true⟩, none⟩] .A = [] := by
      rw [eligibleStyles, List.filter_eq_nil]
      intro s hs
      simp at hs
      simp [isEligible, hs]
    simp [recommendStyles, rankedByDistance, helig, buildRankGroupsAux]

/-- Witness for (amended) C3 at a concrete not-yet-normalized entity list. -/
theorem notReady_silent_fallback_witness :
    (∀ s ∈ [(⟨⟨0, 0, 0, true⟩, none⟩ : PlotStyle)], s.normCoord = none) ∧
    recommendStyles ⟨0, none, none⟩ [⟨⟨0, 0, 0, true⟩, none⟩] .A 5 = [] := by
  have hmem : ∀ s ∈ [(⟨⟨0, 0, 0, true⟩, none⟩ : PlotStyle)], s.normCoord = none := by
    intro s hs
    simp at hs
    rw [hs]
  exact ⟨hmem, (notReady_silent_fallback ⟨0, none, none⟩ .A ⟨0, none, none⟩ _ 5).2 hmem⟩

/-! ## The grouping loop of recommendStyles -/

theorem roundTo5_mono {a b : ℝ} (hab : a ≤ b) : roundTo5 a ≤ roundTo5 b := by
  unfold roundTo5
  have h2 : round (a * 100000) ≤ round (b * 100000) := by
    rw [round_eq, round_eq]
    exact Int.floor_mono (by linarith)
  have h3 : ((round (a * 100000) : ℤ) : ℝ) ≤ ((round (b * 100000) : ℤ) : ℝ) := by
    exact_mod_cast h2
  exact (div_le_div_right (by norm_num)).mpr h3

theorem roundTo5_zero : roundTo5 0 = 0 := by
  simp [roundTo5]

theorem roundTo5_nonneg {d : ℝ} (hd : 0 ≤ d) : 0 ≤ roundTo5 d := by
  have h := roundTo5_mono hd
  rw [roundTo5_zero] at h
  exact h

theorem mem_of_mem_dropLast {α : Type} {l : List α} {a : α}
    (h : a ∈ l.dropLast) : a ∈ l := by
  induction l with
  | nil => cases h
  | cons x rest ih =>
    cases rest with
    | nil => cases h
    | cons y rest2 =>
      rw [List.dropLast_cons₂] at h
      rcases List.mem_cons.mp h with rfl | h2
      · exact List.mem_cons_self _ _
      · exact List.mem_cons_of_mem _ (ih h2)

theorem appendToLast_eq (groups : List RankGroup) (s : PlotStyle) (h : groups ≠ []) :
    appendToLast groups s = groups.dropLast ++
      [{ groups.getLast h with styles := (groups.getLast h).styles ++ [s] }] := by
  induction groups with
  | nil => exact absurd rfl h
  | cons g rest ih =>
    cases rest with
    | nil => simp [appendToLast]
    | cons g2 rest2 =>
      have h2 : g2 :: rest2 ≠ [] := List.cons_ne_nil _ _
      rw [List.dropLast_cons₂, List.getLast_cons h2]
      show g :: appendToLast (g2 :: rest2) s = _
      rw [ih h2, List.cons_append]

theorem appendToLast_map_rank (groups : List RankGroup) (s : PlotStyle) :
    (appendToLast groups s).map (fun g => g.rank) = groups.map (fun g => g.rank) := by
  induction groups with
  | nil => rfl
  | cons g rest ih =>
    cases rest with
    | nil => simp [appendToLast]
    | cons g2 rest2 =>
      show RankGroup.rank g :: _ = RankGroup.rank g :: _
      rw [ih]

theorem appendToLast_map_dist (groups : List RankGroup) (s : PlotStyle) :
    (appendToLast groups s).map (fun g => g.distance)
      = groups.map (fun g => g.distance) := by
  induction groups with
  | nil => rfl
  | cons g rest ih =>
    cases rest with
    | nil => simp [appendToLast]
    | cons g2 rest2 =>
      show RankGroup.distance g :: _ = RankGroup.distance g :: _
      rw [ih]

theorem appendToLast_length (groups : List RankGroup) (s : PlotStyle) :
    (appendToLast groups s).length = groups.length := by
  have h := congrArg List.length (appendToLast_map_rank groups s)
  simpa using h

/-- Every element of the front of a list is related to its last element, for a
pairwise-related list. -/
theorem pairwise_dropLast_getLast {R : RankGroup → RankGroup → Prop}
    {l : List RankGroup} (hp : List.Pairwise R l) (h : l ≠ [])
    {g : RankGroup} (hg : g ∈ l.dropLast) : R g (l.getLast h) := by
  have hsplit : l.dropLast ++ [l.getLast h] = l := List.dropLast_append_getLast h
  rw [← hsplit] at hp
  have := (List.pairwise_append.mp hp).2.2
  exact this g hg _ (List.mem_singleton_self _)

theorem getLast_concat_eq {α : Type} {l : List α} {a : α} (h : l ++ [a] ≠ []) :
    (l ++ [a]).getLast h = a :=
  List.getLast_append_singleton l

theorem getLast_eq_of_getLast? {α : Type} {l : List α} {a : α}
    (h1 : l.getLast? = some a) (h : l ≠ []) : l.getLast h = a := by
  rw [List.getLast?_eq_getLast l h] at h1
  exact Option.some.inj h1

/-- Main invariant of the grouping loop: started in a consistent state, the
loop produces a `GroupsOk` result. -/
theorem buildRankGroupsAux_spec (maxRank : ℕ) :
    ∀ (items : List RankedStyle) (currentRank : ℕ) (currentDistance : ℝ)
      (acc : List RankGroup),
    List.Pairwise (fun a b => a.distance ≤ b.distance) items →
    (∀ item ∈ items, 0 ≤ item.distance) →
    currentRank = acc.length + 1 →
    currentRank ≤ maxRank + 1 →
    acc.map (fun g => g.rank) = List.range' 1 acc.length →
    List.Pairwise (fun g1 g2 => g1.distance < g2.distance) acc →
    (∀ g ∈ acc, g.styles ≠ []) →
    (acc = [] → currentDistance = -1) →
    (∀ h : acc ≠ [], (acc.getLast h).distance = currentDistance ∧ 0 ≤ currentDistance) →
    (∀ g ∈ acc, g.distance ≤ currentDistance) →
    (∀ item ∈ items, currentDistance ≤ roundTo5 item.distance) →
    GroupsOk maxRank items currentDistance acc
      (buildRankGroupsAux maxRank items currentRank currentDistance acc) := by
  intro items
  induction items with
  | nil =>
    intro currentRank currentDistance acc _ _ hrank hrankle hranks hpair hne _ _ hdom _
    show GroupsOk _ _ _ _ acc
    refine ⟨by omega, hranks, hpair, hne, ?_, ?_⟩
    · intro g hg
      rcases eq_or_ne acc [] with rfl | hne0
      · cases hg
      · have hsplit := List.dropLast_append_getLast hne0
        rw [← hsplit] at hg
        rcases List.mem_append.mp hg with h | h
        · exact Or.inl h
        · rw [List.mem_singleton] at h
          subst h
          exact Or.inr (Or.inl ⟨hne0, rfl, [], (List.append_nil _).symm⟩)
    · intro g _ item hitem
      exact absurd hitem (List.not_mem_nil _)
  | cons item rest ih =>
    intro currentRank currentDistance acc hsort hpos hrank hrankle hranks hpair hne
      hccEmpty hlast hdom hfuture
    have hsort' : List.Pairwise (fun a b => a.distance ≤ b.distance) rest :=
      (List.pairwise_cons.mp hsort).2
    have hheadle : ∀ it ∈ rest, item.distance ≤ it.distance :=
      (List.pairwise_cons.mp hsort).1
    have hpos' : ∀ it ∈ rest, 0 ≤ it.distance :=
      fun it h => hpos it (List.mem_cons_of_mem _ h)
    have hitem0 : 0 ≤ item.distance := hpos item (List.mem_cons_self _ _)
    have hrd0 : 0 ≤ roundTo5 item.distance := roundTo5_nonneg hitem0
    by_cases hcond : currentDistance = -1 ∨ roundTo5 item.distance ≠ currentDistance
    · have hcdrd : currentDistance < roundTo5 item.distance := by
        have h1 := hfuture item (List.mem_cons_self _ _)
        rcases hcond with hcd | hne2
        · rw [hcd]; linarith
        · exact lt_of_le_of_ne h1 (Ne.symm hne2)
      by_cases hbreak : maxRank < currentRank
      · -- the `break` case: the loop returns the accumulator unchanged
        have hres : buildRankGroupsAux maxRank (item :: rest) currentRank currentDistance acc
            = acc := by
          simp only [buildRankGroupsAux, if_pos hcond, if_pos hbreak]
        rw [hres]
        refine ⟨by omega, hranks, hpair, hne, ?_, ?_⟩
        · intro g hg
          rcases eq_or_ne acc [] with rfl | hne0
          · cases hg
          · have hsplit := List.dropLast_append_getLast hne0
            rw [← hsplit] at hg
            rcases List.mem_append.mp hg with h | h
            · exact Or.inl h
            · rw [List.mem_singleton] at h
              subst h
              exact Or.inr (Or.inl ⟨hne0, rfl, [], (List.append_nil _).symm⟩)
        · intro g hg it hit hrdeq
          exfalso
          have hgdom := hdom g hg
          have hit_ge : roundTo5 item.distance ≤ roundTo5 it.distance := by
            rcases List.mem_cons.mp hit with rfl | hmem
            · exact le_refl _
            · exact roundTo5_mono (hheadle it hmem)
          rw [hrdeq] at hit_ge
          linarith
      · -- a new group is opened
        have hres : buildRankGroupsAux maxRank (item :: rest) currentRank currentDistance acc
            = buildRankGroupsAux maxRank rest (currentRank + 1) (roundTo5 item.distance)
              (acc ++ [{ rank := currentRank
                         styles := [item.style]
                         distance := roundTo5 item.distance }]) := by
          simp only [buildRankGroupsAux, if_pos hcond, if_neg hbreak]
        rw [hres]
        have hlen' : (acc ++ [({ rank := currentRank
                                 styles := [item.style]
                                 distance := roundTo5 item.distance } : RankGroup)]).length
            = acc.length + 1 := by
          simp
        have hGok := ih (currentRank + 1) (roundTo5 item.distance)
          (acc ++ [{ rank := currentRank
                     styles := [item.style]
                     distance := roundTo5 item.distance }])
          hsort' hpos' (by omega) (by omega)
          (by
            rw [List.map_append, hranks, hlen']
            simp [List.range'_concat, hrank]
            omega)
          (by
            rw [List.pairwise_append]
            refine ⟨hpair, List.pairwise_singleton _ _, ?_⟩
            intro g hg b hb
            rw [List.mem_singleton] at hb
            subst hb
            have := hdom g hg
            show g.distance < roundTo5 item.distance
            linarith)
          (by
            intro g hg
            rcases List.mem_append.mp hg with h | h
            · exact hne g h
            · rw [List.mem_singleton] at h
              subst h
              simp)
          (by
            intro hcontra
            exact absurd hcontra (by simp))
          (by
            intro h
            rw [getLast_concat_eq h]
            exact ⟨rfl, hrd0⟩)
          (by
            intro g hg
            rcases List.mem_append.mp hg with h | h
            · have := hdom g h
              linarith
            · rw [List.mem_singleton] at h
              subst h
              exact le_refl _)
          (fun it hit => roundTo5_mono (hheadle it hit))
        obtain ⟨hL, hR, hP, hN, hF, hT⟩ := hGok
        refine ⟨hL, hR, hP, hN, ?_, ?_⟩
        · intro g hg
          rcases hF g hg with hdrop | ⟨h', hdist, tail, hstyles⟩ | hgt
          · rw [List.dropLast_concat] at hdrop
            rcases eq_or_ne acc [] with rfl | hne0
            · cases hdrop
            · have hsplit := List.dropLast_append_getLast hne0
              rw [← hsplit] at hdrop
              rcases List.mem_append.mp hdrop with h | h
              · exact Or.inl h
              · rw [List.mem_singleton] at h
                subst h
                exact Or.inr (Or.inl ⟨hne0, rfl, [], (List.append_nil _).symm⟩)
          · rw [getLast_concat_eq h'] at hdist
            exact Or.inr (Or.inr (by rw [hdist]; exact hcdrd))
          · exact Or.inr (Or.inr (lt_trans hcdrd hgt))
        · intro g hg it hit hrdeq
          rcases List.mem_cons.mp hit with rfl | hmem
          · rcases hF g hg with hdrop | ⟨h', hdist, tail, hstyles⟩ | hgt
            · rw [List.dropLast_concat] at hdrop
              have := hdom g hdrop
              rw [← hrdeq] at this
              linarith
            · rw [hstyles, getLast_concat_eq h']
              exact List.mem_append_left _ (List.mem_singleton_self _)
            · rw [← hrdeq] at hgt
              exact absurd hgt (lt_irrefl _)
          · exact hT g hg it hmem hrdeq
    · -- tie with the currently open group
      push_neg at hcond
      obtain ⟨hcdne, hrdeq0⟩ := hcond
      have hne0 : acc ≠ [] := fun h => hcdne (hccEmpty h)
      have happx := appendToLast_eq acc item.style hne0
      have hlen'' := appendToLast_length acc item.style
      have hres : buildRankGroupsAux maxRank (item :: rest) currentRank currentDistance acc
          = buildRankGroupsAux maxRank rest currentRank currentDistance
            (appendToLast acc item.style) := by
        simp only [buildRankGroupsAux]
        rw [if_neg]
        push_neg
        exact ⟨hcdne, hrdeq0⟩
      rw [hres]
      have hacc'ne : appendToLast acc item.style ≠ [] := by
        intro hcontra
        have := congrArg List.length hcontra
        rw [hlen''] at this
        exact hne0 (List.length_eq_zero.mp this)
      have hGok := ih currentRank currentDistance (appendToLast acc item.style)
        hsort' hpos' (by omega) hrankle
        (by rw [appendToLast_map_rank, hlen'']; exact hranks)
        (by
          refine List.pairwise_map.mp ?_
          rw [appendToLast_map_dist]
          exact List.pairwise_map.mpr hpair)
        (by
          intro g hg
          rw [happx] at hg
          rcases List.mem_append.mp hg with h | h
          · exact hne g (mem_of_mem_dropLast h)
          · rw [List.mem_singleton] at h
            subst h
            simp)
        (fun h => absurd h hacc'ne)
        (by
          intro h
          have hgl : (appendToLast acc item.style).getLast h
              = { acc.getLast hne0 with
                  styles := (acc.getLast hne0).styles ++ [item.style] } :=
            getLast_eq_of_getLast? (by rw [happx]; exact List.getLast?_concat _) h
          rw [hgl]
          exact ⟨(hlast hne0).1, (hlast hne0).2⟩)
        (by
          intro g hg
          rw [happx] at hg
          rcases List.mem_append.mp hg with h | h
          · exact hdom g (mem_of_mem_dropLast h)
          · rw [List.mem_singleton] at h
            subst h
            show (acc.getLast hne0).distance ≤ currentDistance
            rw [(hlast hne0).1])
        (fun it hit => hfuture it (List.mem_cons_of_mem _ hit))
      obtain ⟨hL, hR, hP, hN, hF, hT⟩ := hGok
      refine ⟨hL, hR, hP, hN, ?_, ?_⟩
      · intro g hg
        rcases hF g hg with hdrop | ⟨h', hdist, tail, hstyles⟩ | hgt
        · rw [happx, List.dropLast_concat] at hdrop
          exact Or.inl hdrop
        · have hgl : (appendToLast acc item.style).getLast h'
              = { acc.getLast hne0 with
                  styles := (acc.getLast hne0).styles ++ [item.style] } :=
            getLast_eq_of_getLast? (by rw [happx]; exact List.getLast?_concat _) h'
          rw [hgl] at hdist hstyles
          refine Or.inr (Or.inl ⟨hne0, ?_, [item.style] ++ tail, ?_⟩)
          · rw [hdist]
          · rw [hstyles, List.append_assoc]
        · exact Or.inr (Or.inr hgt)
      · intro g hg it hit hrdeq2
        rcases List.mem_cons.mp hit with heq | hmem
        · rw [heq] at hrdeq2 ⊢
          rw [hrdeq0] at hrdeq2
          rcases hF g hg with hdrop | ⟨h', hdist, tail, hstyles⟩ | hgt
          · rw [happx, List.dropLast_concat] at hdrop
            have hlt := pairwise_dropLast_getLast hpair hne0 hdrop
            rw [(hlast hne0).1, hrdeq2] at hlt
            exact absurd hlt (lt_irrefl _)
          · have hgl : (appendToLast acc item.style).getLast h'
                = { acc.getLast hne0 with
                    styles := (acc.getLast hne0).styles ++ [item.style] } :=
              getLast_eq_of_getLast? (by rw [happx]; exact List.getLast?_concat _) h'
            rw [hgl] at hstyles
            rw [hstyles]
            exact List.mem_append_left _
              (List.mem_append_right _ (List.mem_singleton_self _))
          · rw [← hrdeq2] at hgt
            exact absurd hgt (lt_irrefl _)
        · exact hT g hg it hmem hrdeq2

/-- With every remaining rounded distance equal to the open group's distance,
the loop only ever appends to that single open group. -/
theorem buildRankGroupsAux_all_tie (maxRank : ℕ) (rd : ℝ) (hrd : rd ≠ -1) :
    ∀ (rest : List RankedStyle) (g : RankGroup) (currentRank : ℕ),
    g.distance = rd →
    (∀ it ∈ rest, roundTo5 it.distance = rd) →
    buildRankGroupsAux maxRank rest currentRank rd [g]
      = [{ g with styles := g.styles ++ rest.map (fun it => it.style) }] := by
  intro rest
  induction rest with
  | nil =>
    intro g currentRank _ _
    show [g] = _
    simp
  | cons it rest ih =>
    intro g currentRank hgd htie
    have hstep : buildRankGroupsAux maxRank (it :: rest) currentRank rd [g]
        = buildRankGroupsAux maxRank rest currentRank rd
            [{ g with styles := g.styles ++ [it.style] }] := by
      simp only [buildRankGroupsAux]
      rw [if_neg]
      · rfl
      · push_neg
        exact ⟨hrd, htie it (List.mem_cons_self _ _)⟩
    rw [hstep,
      ih { g with styles := g.styles ++ [it.style] } currentRank hgd
        (fun x hx => htie x (List.mem_cons_of_mem _ hx))]
    simp

theorem mem_rankedByDistance (queryCoord : Coordinate) (styles : List PlotStyle)
    (styleSet : StyleSetType) (item : RankedStyle) :
    item ∈ rankedByDistance queryCoord styles styleSet ↔
      ∃ s ∈ eligibleStyles styles styleSet,
        item = ⟨s, recommendDistanceOf queryCoord styleSet s, 0⟩ := by
  rw [rankedByDistance, (List.perm_insertionSort _ _).mem_iff, List.mem_map]
  constructor
  · rintro ⟨s, hs, rfl⟩
    exact ⟨s, hs, rfl⟩
  · rintro ⟨s, hs, rfl⟩
    exact ⟨s, hs, rfl⟩

theorem ranked_sorted (queryCoord : Coordinate) (styles : List PlotStyle)
    (styleSet : StyleSetType) :
    List.Pairwise (fun a b => a.distance ≤ b.distance)
      (rankedByDistance queryCoord styles styleSet) :=
  List.sorted_insertionSort _ _

theorem ranked_nonneg (queryCoord : Coordinate) (styles : List PlotStyle)
    (styleSet : StyleSetType) :
    ∀ item ∈ rankedByDistance queryCoord styles styleSet, 0 ≤ item.distance := by
  intro item hitem
  obtain ⟨s, _, rfl⟩ := (mem_rankedByDistance queryCoord styles styleSet item).mp hitem
  exact Real.sqrt_nonneg _

/-- The grouping loop started from the initial state of `recommendStyles`
produces a `GroupsOk` result. -/
theorem recommend_spec (queryCoord : Coordinate) (styles : List PlotStyle)
    (styleSet : StyleSetType) (maxRank : ℕ) :
    GroupsOk maxRank (rankedByDistance queryCoord styles styleSet) (-1) []
      (recommendStyles queryCoord styles styleSet maxRank) :=
  buildRankGroupsAux_spec maxRank (rankedByDistance queryCoord styles styleSet) 1 (-1) []
    (ranked_sorted queryCoord styles styleSet)
    (ranked_nonneg queryCoord styles styleSet)
    rfl (by omega) rfl List.Pairwise.nil
    (fun g hg => absurd hg (List.not_mem_nil _))
    (fun _ => rfl)
    (fun h => absurd rfl h)
    (fun g hg => absurd hg (List.not_mem_nil _))
    (fun item hitem => by
      have h := roundTo5_nonneg (ranked_nonneg queryCoord styles styleSet item hitem)
      linarith)

/-- C4: in `recommendStyles`, no group beyond `maxRank` is ever opened, yet
every eligible entity whose rounded distance equals the distance of a
returned group is a member of that group — groups are never split or
truncated at the `maxRank` boundary. -/
theorem recommend_tie_complete (queryCoord : Coordinate) (styles : List PlotStyle)
    (styleSet : StyleSetType) (maxRank : ℕ) :
    (recommendStyles queryCoord styles styleSet maxRank).length ≤ maxRank ∧
    ∀ g ∈ recommendStyles queryCoord styles styleSet maxRank,
      ∀ s ∈ eligibleStyles styles styleSet,
        roundTo5 (recommendDistanceOf queryCoord styleSet s) = g.distance →
          s ∈ g.styles := by
  obtain ⟨hL, _, _, _, _, hT⟩ := recommend_spec queryCoord styles styleSet maxRank
  refine ⟨hL, fun g hg s hs hrd => ?_⟩
  have hmem : (⟨s, recommendDistanceOf queryCoord styleSet s, 0⟩ : RankedStyle)
      ∈ rankedByDistance queryCoord styles styleSet :=
    (mem_rankedByDistance queryCoord styles styleSet _).mpr ⟨s, hs, rfl⟩
  exact hT g hg _ hmem hrd

/-- C7 (amended): the recommendation list has strictly increasing ranks and
strictly increasing rounded distances, at most `maxRank` groups, and no empty
group; an empty eligible set gives an empty list; and — provided
`maxRank ≥ 1` — a non-empty eligible set whose rounded distances all agree
collapses into a single rank-1 group holding every eligible entity. -/
theorem recommend_invariants (queryCoord : Coordinate) (styles : List PlotStyle)
    (styleSet : StyleSetType) (maxRank : ℕ) :
    List.Pairwise (fun g1 g2 => g1.rank < g2.rank ∧ g1.distance < g2.distance)
      (recommendStyles queryCoord styles styleSet maxRank) ∧
    (recommendStyles queryCoord styles styleSet maxRank).length ≤ maxRank ∧
    (∀ g ∈ recommendStyles queryCoord styles styleSet maxRank, g.styles ≠ []) ∧
    (eligibleStyles styles styleSet = [] →
      recommendStyles queryCoord styles styleSet maxRank = []) ∧
    (1 ≤ maxRank → eligibleStyles styles styleSet ≠ [] →
      (∀ s1 ∈ eligibleStyles styles styleSet, ∀ s2 ∈ eligibleStyles styles styleSet,
        roundTo5 (recommendDistanceOf queryCoord styleSet s1)
          = roundTo5 (recommendDistanceOf queryCoord styleSet s2)) →
      ∃ g, recommendStyles queryCoord styles styleSet maxRank = [g] ∧ g.rank = 1 ∧
        ∀ s ∈ eligibleStyles styles styleSet, s ∈ g.styles) := by
  obtain ⟨hL, hR, hP, hN, _, _⟩ := recommend_spec queryCoord styles styleSet maxRank
  refine ⟨?_, hL, hN, ?_, ?_⟩
  · have hrankpw : List.Pairwise (fun g1 g2 => g1.rank < g2.rank)
        (recommendStyles queryCoord styles styleSet maxRank) := by
      have h1 : List.Pairwise (fun a b => a < b)
          ((recommendStyles queryCoord styles styleSet maxRank).map (fun g => g.rank)) := by
        rw [hR]
        exact List.pairwise_lt_range' 1 _
      exact List.pairwise_map.mp h1
    exact hrankpw.and hP
  · intro helig
    have hr0 : rankedByDistance queryCoord styles styleSet = [] := by
      rw [rankedByDistance, helig]
      rfl
    show buildRankGroupsAux maxRank (rankedByDistance queryCoord styles styleSet)
        1 (-1) [] = []
    rw [hr0]
    rfl
  · intro hmr hnil htieall
    obtain ⟨item, rest', hcons⟩ :
        ∃ it r, rankedByDistance queryCoord styles styleSet = it :: r := by
      cases hr : rankedByDistance queryCoord styles styleSet with
      | nil =>
        exfalso
        have hlen := (List.perm_insertionSort
          (fun a b : RankedStyle => a.distance ≤ b.distance)
          ((eligibleStyles styles styleSet).map (fun style =>
            (⟨style, recommendDistanceOf queryCoord styleSet style, 0⟩ : RankedStyle)))).length_eq
        rw [← rankedByDistance, hr] at hlen
        simp at hlen
        exact hnil (List.length_eq_zero.mp hlen.symm ▸ rfl)
      | cons a b => exact ⟨a, b, rfl⟩
    have hmemitem : item ∈ rankedByDistance queryCoord styles styleSet := by
      rw [hcons]
      exact List.mem_cons_self _ _
    obtain ⟨s0, hs0, hitem⟩ :=
      (mem_rankedByDistance queryCoord styles styleSet item).mp hmemitem
    have hrd0 : 0 ≤ roundTo5 item.distance :=
      roundTo5_nonneg (ranked_nonneg queryCoord styles styleSet item hmemitem)
    have hrdne : roundTo5 item.distance ≠ -1 := by
      intro hcontra
      rw [hcontra] at hrd0
      linarith
    have htierest : ∀ it ∈ rest', roundTo5 it.distance = roundTo5 item.distance := by
      intro it hit
      have hmem : it ∈ rankedByDistance queryCoord styles styleSet := by
        rw [hcons]
        exact List.mem_cons_of_mem _ hit
      obtain ⟨s', hs', hit'⟩ :=
        (mem_rankedByDistance queryCoord styles styleSet it).mp hmem
      rw [hit', hitem]
      exact htieall s' hs' s0 hs0
    have hstep : recommendStyles queryCoord styles styleSet maxRank
        = buildRankGroupsAux maxRank rest' 2 (roundTo5 item.distance)
          [(⟨1, [item.style], roundTo5 item.distance⟩ : RankGroup)] := by
      show buildRankGroupsAux maxRank (rankedByDistance queryCoord styles styleSet)
          1 (-1) [] = _
      rw [hcons]
      simp only [buildRankGroupsAux]
      rw [if_pos (Or.inl trivial), if_neg (by omega : ¬ maxRank < 1)]
      rfl
    rw [hstep, buildRankGroupsAux_all_tie maxRank (roundTo5 item.distance) hrdne rest'
      ⟨1, [item.style], roundTo5 item.distance⟩ 2 rfl htierest]
    refine ⟨_, rfl, rfl, ?_⟩
    intro s hs
    have hmem : (⟨s, recommendDistanceOf queryCoord styleSet s, 0⟩ : RankedStyle)
        ∈ rankedByDistance queryCoord styles styleSet :=
      (mem_rankedByDistance queryCoord styles styleSet _).mpr ⟨s, hs, rfl⟩
    rw [hcons] at hmem
    rcases List.mem_cons.mp hmem with heq | hmem2
    · have : item.style = s := by rw [← heq]
      show s ∈ [item.style] ++ rest'.map (fun it => it.style)
      rw [← this]
      exact List.mem_append_left _ (List.mem_singleton_self _)
    · show s ∈ [item.style] ++ rest'.map (fun it => it.style)
      refine List.mem_append_right _ ?_
      have := List.mem_map_of_mem (fun it : RankedStyle => it.style) hmem2
      simpa using this

/-- An entity normalized onto the query point is at Euclidean distance 0. -/
theorem recommendDistanceOf_self (q : Coordinate) (ss : StyleSetType) (s : PlotStyle)
    (h : s.normCoord = some q) : recommendDistanceOf q ss s = 0 := by
  rw [recommendDistanceOf, h]
  have hsum : sumSqOverAxes q q (recommendAxes ss) = 0 := by
    cases ss <;> simp [sumSqOverAxes, recommendAxes, Coordinate.axisVal]
  show euclideanDistance q q _ = 0
  rw [euclideanDistance, hsum]
  simp

theorem eligible_single :
    eligibleStyles [⟨⟨0, 0, 0, true⟩, some ⟨0, some 0, none⟩⟩] .A
      = [⟨⟨0, 0, 0, true⟩, some ⟨0, some 0, none⟩⟩] := by
  simp [eligibleStyles, isEligible, List.filter]

theorem eligible_pair :
    eligibleStyles [⟨⟨0, 0, 0, true⟩, some ⟨0, some 0, none⟩⟩,
        ⟨⟨1, 0, 0, true⟩, some ⟨0, some 0, none⟩⟩] .A
      = [⟨⟨0, 0, 0, true⟩, some ⟨0, some 0, none⟩⟩,
         ⟨⟨1, 0, 0, true⟩, some ⟨0, some 0, none⟩⟩] := by
  simp [eligibleStyles, isEligible, List.filter]

/-- C7 counterexample: with `maxRank = 0` and a non-empty eligible set (whose
rounded distances are trivially all equal), `recommend` returns the empty
list, not a single rank-1 group containing every eligible entity. -/
theorem recommend_invariants_cex :
    eligibleStyles [⟨⟨0, 0, 0, true⟩, some ⟨0, some 0, none⟩⟩] .A
      = [⟨⟨0, 0, 0, true⟩, some ⟨0, some 0, none⟩⟩] ∧
    recommendStyles ⟨0, some 0, none⟩
      [⟨⟨0, 0, 0, true⟩, some ⟨0, some 0, none⟩⟩] .A 0 = [] := by
  refine ⟨eligible_single, ?_⟩
  have hranked : rankedByDistance ⟨0, some 0, none⟩
      [⟨⟨0, 0, 0, true⟩, some ⟨0, some 0, none⟩⟩] .A
      = [⟨⟨⟨0, 0, 0, true⟩, some ⟨0, some 0, none⟩⟩,
          recommendDistanceOf ⟨0, some 0, none⟩ .A
            ⟨⟨0, 0, 0, true⟩, some ⟨0, some 0, none⟩⟩, 0⟩] := by
    rw [rankedByDistance, eligible_single]
    rfl
  show buildRankGroupsAux 0 _ 1 (-1) [] = []
  rw [hranked]
  simp only [buildRankGroupsAux]
  rw [if_pos (Or.inl trivial), if_pos (by omega : 0 < 1)]

theorem recommend_concrete :
    recommendStyles ⟨0, some 0, none⟩
      [⟨⟨0, 0, 0, true⟩, some ⟨0, some 0, none⟩⟩,
       ⟨⟨1, 0, 0, true⟩, some ⟨0, some 0, none⟩⟩] .A 1
      = [⟨1, [⟨⟨0, 0, 0, true⟩, some ⟨0, some 0, none⟩⟩,
              ⟨⟨1, 0, 0, true⟩, some ⟨0, some 0, none⟩⟩], 0⟩] := by
  have hd1 := recommendDistanceOf_self (⟨0, some 0, none⟩ : Coordinate) .A
    ⟨⟨0, 0, 0, true⟩, some ⟨0, some 0, none⟩⟩ rfl
  have hd2 := recommendDistanceOf_self (⟨0, some 0, none⟩ : Coordinate) .A
    ⟨⟨1, 0, 0, true⟩, some ⟨0, some 0, none⟩⟩ rfl
  have hranked : rankedByDistance ⟨0, some 0, none⟩
      [⟨⟨0, 0, 0, true⟩, some ⟨0, some 0, none⟩⟩,
       ⟨⟨1, 0, 0, true⟩, some ⟨0, some 0, none⟩⟩] .A
      = [⟨⟨⟨0, 0, 0, true⟩, some ⟨0, some 0, none⟩⟩, 0, 0⟩,
         ⟨⟨⟨1, 0, 0, true⟩, some ⟨0, some 0, none⟩⟩, 0, 0⟩] := by
    rw [rankedByDistance, eligible_pair]
    simp only [List.map]
    rw [hd1, hd2]
    simp [List.insertionSort, List.orderedInsert, le_refl]
  show buildRankGroupsAux 1 _ 1 (-1) [] = _
  rw [hranked]
  norm_num [buildRankGroupsAux, roundTo5_zero, appendToLast]

/-- Witness for C4: two eligible entities at the same rounded distance with
`maxRank = 1` end up together in the single group; in particular the second
(tying) entity is appended, not dropped. -/
theorem recommend_tie_complete_witness :
    ∃ g, recommendStyles ⟨0, some 0, none⟩
        [⟨⟨0, 0, 0, true⟩, some ⟨0, some 0, none⟩⟩,
         ⟨⟨1, 0, 0, true⟩, some ⟨0, some 0, none⟩⟩] .A 1 = [g] ∧
      (⟨⟨1, 0, 0, true⟩, some ⟨0, some 0, none⟩⟩ : PlotStyle) ∈ eligibleStyles
        [⟨⟨0, 0, 0, true⟩, some ⟨0, some 0, none⟩⟩,
         ⟨⟨1, 0, 0, true⟩, some ⟨0, some 0, none⟩⟩] .A ∧
      roundTo5 (recommendDistanceOf ⟨0, some 0, none⟩ .A
        ⟨⟨1, 0, 0, true⟩, some ⟨0, some 0, none⟩⟩) = g.distance ∧
      (⟨⟨1, 0, 0, true⟩, some ⟨0, some 0, none⟩⟩ : PlotStyle) ∈ g.styles := by
  have he2 : (⟨⟨1, 0, 0, true⟩, some ⟨0, some 0, none⟩⟩ : PlotStyle) ∈ eligibleStyles
      [⟨⟨0, 0, 0, true⟩, some ⟨0, some 0, none⟩⟩,
       ⟨⟨1, 0, 0, true⟩, some ⟨0, some 0, none⟩⟩] .A := by
    rw [eligible_pair]
    simp
  have hrd : roundTo5 (recommendDistanceOf ⟨0, some 0, none⟩ .A
      ⟨⟨1, 0, 0, true⟩, some ⟨0, some 0, none⟩⟩)
      = (⟨1, [⟨⟨0, 0, 0, true⟩, some ⟨0, some 0, none⟩⟩,
          ⟨⟨1, 0, 0, true⟩, some ⟨0, some 0, none⟩⟩], 0⟩ : RankGroup).distance := by
    rw [recommendDistanceOf_self (⟨0, some 0, none⟩ : Coordinate) .A
      ⟨⟨1, 0, 0, true⟩, some ⟨0, some 0, none⟩⟩ rfl, roundTo5_zero]
  refine ⟨_, recommend_concrete, he2, hrd, ?_⟩
  exact (recommend_tie_complete ⟨0, some 0, none⟩
      [⟨⟨0, 0, 0, true⟩, some ⟨0, some 0, none⟩⟩,
       ⟨⟨1, 0, 0, true⟩, some ⟨0, some 0, none⟩⟩] .A 1).2 _
    (by rw [recommend_concrete]; exact List.mem_singleton_self _) _ he2 hrd

/-- Witness for (amended) C7 at a concrete one-entity set with `maxRank = 5`. -/
theorem recommend_invariants_witness :
    1 ≤ 5 ∧
    eligibleStyles [⟨⟨0, 0, 0, true⟩, some ⟨0, some 0, none⟩⟩] .A ≠ [] ∧
    ∃ g, recommendStyles ⟨0, some 0, none⟩
        [⟨⟨0, 0, 0, true⟩, some ⟨0, some 0, none⟩⟩] .A 5 = [g] ∧ g.rank = 1 ∧
      ∀ s ∈ eligibleStyles [⟨⟨0, 0, 0, true⟩, some ⟨0, some 0, none⟩⟩] .A,
        s ∈ g.styles := by
  refine ⟨by norm_num, ?_, ?_⟩
  · rw [eligible_single]
    exact List.cons_ne_nil _ _
  · exact (recommend_invariants ⟨0, some 0, none⟩
      [⟨⟨0, 0, 0, true⟩, some ⟨0, some 0, none⟩⟩] .A 5).2.2.2.2 (by norm_num)
      (by rw [eligible_single]; exact List.cons_ne_nil _ _)
      (by
        intro s1 h1 s2 h2
        rw [eligible_single, List.mem_singleton] at h1 h2
        rw [h1, h2])

/-! ## The contour path -/

theorem getD_map_of_lt {α β : Type} (f : α → β) (l : List α) (k : ℕ) (d : β)
    (hk : k < l.length) : (l.map f).getD k d = f (l.get ⟨k, hk⟩) := by
  rw [List.getD_eq_getElem _ _ (by simpa using hk)]
  simp

/-- C9: on a non-empty entity set the contour is exactly 37 points placed at
`(center.x + R·cos(2πi/36), center.y + R·sin(2πi/36))` where `R` is the
arithmetic mean of the entity distances to the center; the first and last
points coincide; an empty entity set produces an empty path. -/
theorem contour_spec (styles : List PlotStyle) (styleSet : StyleSetType)
    (centerCoord : Coordinate) :
    (styles.length = 0 → generateContourPath styles styleSet centerCoord = []) ∧
    (styles.length ≠ 0 →
      (generateContourPath styles styleSet centerCoord).length = 37 ∧
      contourRadius styles styleSet centerCoord
        = (contourDistances styles styleSet centerCoord).sum / (styles.length : ℝ) ∧
      (∀ i, i < 37 →
        (generateContourPath styles styleSet centerCoord).getD i (0, 0)
          = ((centerCoord.x : ℝ) + contourRadius styles styleSet centerCoord
              * Real.cos (((i : ℝ) / 36) * (2 * Real.pi)),
             (contourSecondary styleSet centerCoord : ℝ)
              + contourRadius styles styleSet centerCoord
              * Real.sin (((i : ℝ) / 36) * (2 * Real.pi)))) ∧
      (generateContourPath styles styleSet centerCoord).getD 0 (0, 0)
        = (generateContourPath styles styleSet centerCoord).getD 36 (0, 0)) := by
  constructor
  · intro h0
    simp [generateContourPath, h0]
  · intro h0
    have hdlen : (contourDistances styles styleSet centerCoord).length = styles.length := by
      simp [contourDistances, contourPoints]
    have hpath : generateContourPath styles styleSet centerCoord
        = (List.range 37).map (fun i : ℕ =>
            ((centerCoord.x : ℝ) + contourRadius styles styleSet centerCoord
              * Real.cos (((i : ℝ) / 36) * (2 * Real.pi)),
             (contourSecondary styleSet centerCoord : ℝ)
              + contourRadius styles styleSet centerCoord
              * Real.sin (((i : ℝ) / 36) * (2 * Real.pi)))) := by
      rw [generateContourPath, if_neg h0]
    have hget : ∀ i, i < 37 →
        (generateContourPath styles styleSet centerCoord).getD i (0, 0)
          = ((centerCoord.x : ℝ) + contourRadius styles styleSet centerCoord
              * Real.cos (((i : ℝ) / 36) * (2 * Real.pi)),
             (contourSecondary styleSet centerCoord : ℝ)
              + contourRadius styles styleSet centerCoord
              * Real.sin (((i : ℝ) / 36) * (2 * Real.pi))) := by
      intro i hi
      rw [hpath, getD_map_of_lt _ _ _ _ (by simpa using hi)]
      simp [List.get_eq_getElem]
    refine ⟨?_, ?_, hget, ?_⟩
    · rw [hpath]
      simp
    · rw [contourRadius, hdlen]
    · rw [hget 0 (by norm_num), hget 36 (by norm_num)]
      norm_num [Real.cos_two_pi, Real.sin_two_pi]

/-- Witness for C9: empty set gives the empty path; a one-entity set gives 37
points with matching first and last point. -/
theorem contour_spec_witness :
    (generateContourPath [] .A ⟨0, none, none⟩ = []) ∧
    ((generateContourPath [⟨⟨0, 0, 0, true⟩, some ⟨0, some 0, none⟩⟩] .A
        ⟨0, none, none⟩).length = 37) ∧
    ((generateContourPath [⟨⟨0, 0, 0, true⟩, some ⟨0, some 0, none⟩⟩] .A
        ⟨0, none, none⟩).getD 0 (0, 0)
      = (generateContourPath [⟨⟨0, 0, 0, true⟩, some ⟨0, some 0, none⟩⟩] .A
        ⟨0, none, none⟩).getD 36 (0, 0)) :=
  ⟨(contour_spec [] .A ⟨0, none, none⟩).1 rfl,
   ((contour_spec [⟨⟨0, 0, 0, true⟩, some ⟨0, some 0, none⟩⟩] .A
     ⟨0, none, none⟩).2 (by norm_num)).1,
   ((contour_spec [⟨⟨0, 0, 0, true⟩, some ⟨0, some 0, none⟩⟩] .A
     ⟨0, none, none⟩).2 (by norm_num)).2.2.2⟩

/-- C10: an entity without a normalized coordinate is mapped to the planar
point `(0, 0)` — not skipped — so the distance from the center to the origin
enters the arithmetic mean that fixes the contour radius. -/
theorem contour_missing_normCoord (styles : List PlotStyle) (styleSet : StyleSetType)
    (centerCoord : Coordinate) (k : ℕ) (hk : k < styles.length)
    (hnone : (styles.get ⟨k, hk⟩).normCoord = none) :
    (contourPoints styles styleSet).length = styles.length ∧
    (contourDistances styles styleSet centerCoord).length = styles.length ∧
    (contourPoints styles styleSet).getD k (0, 0) = ((0 : ℚ), (0 : ℚ)) ∧
    (contourDistances styles styleSet centerCoord).getD k 0
      = Real.sqrt ((((0 : ℚ) - centerCoord.x : ℚ) : ℝ) ^ 2
          + (((0 : ℚ) - contourSecondary styleSet centerCoord : ℚ) : ℝ) ^ 2) ∧
    contourRadius styles styleSet centerCoord
      = (contourDistances styles styleSet centerCoord).sum / (styles.length : ℝ) := by
  have hplen : (contourPoints styles styleSet).length = styles.length := by
    simp [contourPoints]
  have hdlen : (contourDistances styles styleSet centerCoord).length = styles.length := by
    simp [contourDistances, contourPoints]
  have hpt : (contourPoints styles styleSet).getD k (0, 0) = ((0 : ℚ), (0 : ℚ)) := by
    rw [contourPoints, getD_map_of_lt _ _ _ _ hk, hnone]
  refine ⟨hplen, hdlen, hpt, ?_, ?_⟩
  · rw [contourDistances, getD_map_of_lt _ _ _ _ (by rw [hplen]; exact hk)]
    have hptget : (contourPoints styles styleSet).get ⟨k, by rw [hplen]; exact hk⟩
        = ((0 : ℚ), (0 : ℚ)) := by
      rw [← hpt, List.getD_eq_get _ _ (by rw [hplen]; exact hk)]
    rw [hptget]
  · rw [contourRadius, hdlen]

/-- Witness for C10 at a one-entity set whose entity has no normalized
coordinate, with center `(3, 4)`. -/
theorem contour_missing_normCoord_witness :
    0 < ([⟨⟨0, 0, 0, true⟩, none⟩] : List PlotStyle).length ∧
    (contourDistances [⟨⟨0, 0, 0, true⟩, none⟩] .A ⟨3, some 4, none⟩).getD 0 0
      = Real.sqrt ((((0 : ℚ) - 3 : ℚ) : ℝ) ^ 2 + (((0 : ℚ) - 4 : ℚ) : ℝ) ^ 2) ∧
    contourRadius [⟨⟨0, 0, 0, true⟩, none⟩] .A ⟨3, some 4, none⟩
      = (contourDistances [⟨⟨0, 0, 0, true⟩, none⟩] .A ⟨3, some 4, none⟩).sum
        / (([⟨⟨0, 0, 0, true⟩, none⟩] : List PlotStyle).length : ℝ) := by
  have h := contour_missing_normCoord [⟨⟨0, 0, 0, true⟩, none⟩] .A ⟨3, some 4, none⟩ 0
    (by norm_num) rfl
  exact ⟨by norm_num, h.2.2.2.1, h.2.2.2.2⟩

end StyleScoring
